import Mathlib

/-!
Shallow embedding of the reghost DNS daemon (github.com/bilgehannal/reghost)
for checking its natural-language specification.

Embedded components, each translated from the Go source:
* `Matcher` / `Resolver` (pkg/reghost/matcher.go, resolver.go): exact/regex
  domain matching over an ordered record list with a pre-compiled regex cache.
* DNS query handler (internal/dns/handler.go `Handler.ServeDNS`).
* Resolver-file reconciler (internal/resolver `Manager`): suffix extraction,
  per-suffix hint files, diff-based update passes, DNS-cache flush.
* Linux shared resolver file passes (internal/dns/server.go
  `configureLinuxResolver`, `checkAndRestoreLinuxResolver`).
* Loopback IP allocation loop (internal/dns/server.go `bindLoopbackIP`).

Go strings are embedded as `List Char`.  Go's regexp engine is not
re-implemented: regex compilation success and regex matching enter as an
abstract environment (`RegexEnv`), since every claim about the matcher is
insensitive to the regex semantics.  OS side effects (file writes, removals,
cache flushes) are modelled by explicit state passing plus an event trace.
-/

namespace Reghost

/-- Go strings, embedded as lists of characters. -/
abbrev Str := List Char

/-- Coerce a Lean string literal to the embedded string type. -/
def str (s : String) : Str := s.data

/-! ### Character case conversion (Go `strings.ToLower` / `strings.ToUpper`,
restricted to the basic latin range, matching `Char.toLower`/`Char.toUpper`). -/

/-- Embedded `strings.ToLower`. -/
def goToLower (s : Str) : Str := s.map Char.toLower

/-- Embedded `strings.ToUpper`. -/
def goToUpper (s : Str) : Str := s.map Char.toUpper

theorem toNat_ofNat_valid (n : Nat) (h : n.isValidChar) : (Char.ofNat n).toNat = n := by
  rw [Char.ofNat, dif_pos h]
  rfl

theorem toLower_toUpper (c : Char) : Char.toLower (Char.toUpper c) = Char.toLower c := by
  unfold Char.toUpper Char.toLower
  by_cases h1 : c.toNat ≥ 97 ∧ c.toNat ≤ 122
  · rw [if_pos h1]
    have hv : (c.toNat - 32).isValidChar := by
      constructor
      omega
    rw [toNat_ofNat_valid _ hv]
    have h2 : (c.toNat - 32 ≥ 65 ∧ c.toNat - 32 ≤ 90) := by omega
    rw [if_pos h2, if_neg (by omega)]
    have h3 : c.toNat - 32 + 32 = c.toNat := by omega
    rw [h3, Char.ofNat_toNat]
  · rw [if_neg h1]

theorem toLower_eq_self_of_small (c d : Char) (hd : d.toNat < 97)
    (hd2 : ¬ (65 ≤ d.toNat ∧ d.toNat ≤ 90)) :
    Char.toLower c = d ↔ c = d := by
  unfold Char.toLower
  by_cases h1 : c.toNat ≥ 65 ∧ c.toNat ≤ 90
  · rw [if_pos h1]
    constructor
    · intro h
      exfalso
      have hv : (c.toNat + 32).isValidChar := by constructor; omega
      have h2 := toNat_ofNat_valid _ hv
      rw [h] at h2
      omega
    · intro h
      subst h
      omega
  · rw [if_neg h1]

theorem goToLower_goToUpper (s : Str) : goToLower (goToUpper s) = goToLower s := by
  simp [goToLower, goToUpper, Function.comp_def, toLower_toUpper]

theorem goToLower_append (s t : Str) : goToLower (s ++ t) = goToLower s ++ goToLower t := by
  simp [goToLower]

/-! ### Matcher (pkg/reghost, `Matcher` + `Resolver`) -/

/-- Embedded `reghost.Record`: one domain-pattern-to-IP mapping. -/
structure GoRecord where
  domain : Str
  ip : Str
deriving DecidableEq

/-- Abstract semantics of Go's regexp engine: which patterns compile, and
which (pattern, string) pairs match.  The matcher's behaviour is stated for
every such semantics. -/
structure RegexEnv where
  compiles : Str → Bool
  rmatch : Str → Str → Bool

/-- Embedded `Matcher` state: the record slice plus the compiled-regex cache,
where the cache is represented by the list of patterns that are present in it. -/
structure Matcher where
  records : List GoRecord
  regexCache : List Str
deriving DecidableEq

/-- Embedded `Matcher.compilePatterns`: a pattern enters the cache iff it
starts with `^` and compiles. -/
def compilePatterns (env : RegexEnv) (records : List GoRecord) : List Str :=
  records.filterMap fun r =>
    if r.domain.head? = some '^' ∧ env.compiles r.domain then some r.domain else none

/-- Embedded `NewMatcher`. -/
def Matcher.new (env : RegexEnv) (records : List GoRecord) : Matcher :=
  { records := records, regexCache := compilePatterns env records }

/-- Embedded `Matcher.Update`: replaces the record slice and rebuilds the
whole regex cache from the new records. -/
def Matcher.update (env : RegexEnv) (_m : Matcher) (records : List GoRecord) : Matcher :=
  { records := records, regexCache := compilePatterns env records }

/-- FQDN-normalize a record's domain for the exact-match comparison:
lowercase, then append a trailing dot when missing (mirrors the loop body of
`Matcher.Match`). -/
def fqdnLower (d : Str) : Str :=
  let d := goToLower d
  if d.getLast? = some '.' then d else d ++ ['.']

/-- Normalize the query name exactly as `Matcher.Match` does before scanning:
lowercase, then append a trailing dot when missing. -/
def normalizeQuery (d : Str) : Str := fqdnLower d

/-- The record-scanning loop of `Matcher.Match`: exact match first, then the
regex from the cache, first match wins. -/
def matchLoop (env : RegexEnv) (cache : List Str) (d : Str) : List GoRecord → Str × Bool
  | [] => ([], false)
  | r :: rs =>
    if fqdnLower r.domain = d then (r.ip, true)
    else if r.domain ∈ cache then
      if env.rmatch r.domain d then (r.ip, true)
      else matchLoop env cache d rs
    else matchLoop env cache d rs

/-- Embedded `Matcher.Match` (also `Resolver.Resolve` and `Cache.Lookup`,
which both delegate to it unchanged). -/
def Matcher.matchDomain (env : RegexEnv) (m : Matcher) (domain : Str) : Str × Bool :=
  matchLoop env m.regexCache (normalizeQuery domain) m.records

/-- A record matches a normalized query iff its FQDN-normalized domain equals
it, or its pattern is in the regex cache and regex-matches it. -/
def recMatches (env : RegexEnv) (cache : List Str) (d : Str) (r : GoRecord) : Bool :=
  decide (fqdnLower r.domain = d) || (decide (r.domain ∈ cache) && env.rmatch r.domain d)

theorem matchLoop_eq_findFirst (env : RegexEnv) (cache : List Str) (d : Str)
    (rs : List GoRecord) :
    matchLoop env cache d rs =
      match rs.find? (recMatches env cache d) with
      | some r => (r.ip, true)
      | none => ([], false) := by
  induction rs with
  | nil => rfl
  | cons r rs ih =>
    by_cases h1 : fqdnLower r.domain = d
    · simp [matchLoop, h1, List.find?, recMatches]
    · by_cases h2 : r.domain ∈ cache
      · by_cases h3 : env.rmatch r.domain d
        · simp [matchLoop, h1, h2, h3, List.find?, recMatches]
        · simp [matchLoop, h1, h2, h3, List.find?, recMatches, ih]
      · simp [matchLoop, h1, h2, List.find?, recMatches, ih]

theorem matchLoop_sound (env : RegexEnv) (cache : List Str) (d : Str)
    (rs : List GoRecord) (ip : Str) (h : matchLoop env cache d rs = (ip, true)) :
    ∃ r ∈ rs, r.ip = ip := by
  induction rs with
  | nil => simp [matchLoop] at h
  | cons r rs ih =>
    by_cases h1 : fqdnLower r.domain = d
    · simp [matchLoop, h1] at h
      exact ⟨r, List.mem_cons_self r rs, h⟩
    · by_cases h2 : r.domain ∈ cache
      · by_cases h3 : env.rmatch r.domain d
        · simp [matchLoop, h1, h2, h3] at h
          exact ⟨r, List.mem_cons_self r rs, h⟩
        · simp only [matchLoop, if_neg h1, if_pos h2, if_neg h3] at h
          obtain ⟨r0, hr0, hip⟩ := ih h
          exact ⟨r0, List.mem_cons_of_mem r hr0, hip⟩
      · simp only [matchLoop, if_neg h1, if_neg h2] at h
        obtain ⟨r0, hr0, hip⟩ := ih h
        exact ⟨r0, List.mem_cons_of_mem r hr0, hip⟩

/-- The trivial regex semantics: nothing compiles, nothing matches.  Used for
concrete counterexamples and witnesses that only involve literal patterns. -/
def envTriv : RegexEnv := { compiles := fun _ => false, rmatch := fun _ _ => false }

/-! #### Normalization lemmas used for the case/trailing-dot claim -/

theorem fqdnLower_append_dot (D : Str) (h : D.getLast? ≠ some '.') :
    fqdnLower (D ++ str ".") = fqdnLower D := by
  have hdot : Char.toLower '.' = '.' := rfl
  have hlast : (goToLower D).getLast? ≠ some '.' := by
    intro hc
    rw [goToLower, List.getLast?_map] at hc
    cases hD : D.getLast? with
    | none => rw [hD] at hc; simp at hc
    | some c =>
      rw [hD] at hc
      have hc' : Char.toLower c = '.' := by simpa using hc
      rw [toLower_eq_self_of_small c '.' (by decide) (by decide)] at hc'
      exact h (by rw [hD, hc'])
  show fqdnLower (D ++ ['.']) = fqdnLower D
  unfold fqdnLower
  rw [goToLower_append]
  have h1 : goToLower ['.'] = ['.'] := rfl
  rw [h1]
  have h2 : (goToLower D ++ ['.']).getLast? = some '.' :=
    List.getLast?_concat _
  rw [if_pos h2, if_neg hlast]

theorem fqdnLower_goToUpper (D : Str) : fqdnLower (goToUpper D) = fqdnLower D := by
  unfold fqdnLower
  rw [goToLower_goToUpper]

/-- **C5 (amended).**  For every record list and every literal (non-regex)
domain `D` appearing in it that does not already end in a trailing dot,
`Resolve(D)`, `Resolve(D ++ ".")` and `Resolve(uppercase D)` all return the
same `(ip, found)` result.  (The original claim, without the no-trailing-dot
restriction, is refuted by `claim_C5_counterexample`.) -/
theorem claim_C5 (env : RegexEnv) (records : List GoRecord) (D ip : Str)
    (h1 : GoRecord.mk D ip ∈ records) (h2 : D.head? ≠ some '^')
    (h3 : D.getLast? ≠ some '.') :
    Matcher.matchDomain env (Matcher.new env records) (D ++ str ".") =
      Matcher.matchDomain env (Matcher.new env records) D ∧
    Matcher.matchDomain env (Matcher.new env records) (goToUpper D) =
      Matcher.matchDomain env (Matcher.new env records) D := by
  constructor
  · unfold Matcher.matchDomain normalizeQuery
    rw [fqdnLower_append_dot D h3]
  · unfold Matcher.matchDomain normalizeQuery
    rw [fqdnLower_goToUpper]

/-- Witness for C5 at a concrete input: records `[{domain := "myhost",
ip := "10.0.0.1"}]`, `D := "myhost"`. -/
theorem claim_C5_witness :
    Matcher.matchDomain envTriv
        (Matcher.new envTriv [GoRecord.mk (str "myhost") (str "10.0.0.1")])
        (str "myhost" ++ str ".") =
      Matcher.matchDomain envTriv
        (Matcher.new envTriv [GoRecord.mk (str "myhost") (str "10.0.0.1")])
        (str "myhost") ∧
    Matcher.matchDomain envTriv
        (Matcher.new envTriv [GoRecord.mk (str "myhost") (str "10.0.0.1")])
        (goToUpper (str "myhost")) =
      Matcher.matchDomain envTriv
        (Matcher.new envTriv [GoRecord.mk (str "myhost") (str "10.0.0.1")])
        (str "myhost") :=
  claim_C5 envTriv [GoRecord.mk (str "myhost") (str "10.0.0.1")]
    (str "myhost") (str "10.0.0.1") (by decide) (by decide) (by decide)

/-- **C5 (counterexample to the original claim).**  For the literal domain
`D := "myhost."` (which ends in a dot) appearing in the record list,
`Resolve(D)` finds the record but `Resolve(D ++ ".")` does not: the query
normalizes to `"myhost.."`, which no longer equals the record's FQDN form.  -/
theorem claim_C5_counterexample :
    (str "myhost.").head? ≠ some '^' ∧
    Matcher.matchDomain envTriv
        (Matcher.new envTriv [GoRecord.mk (str "myhost.") (str "1.1.1.1")])
        (str "myhost.") = (str "1.1.1.1", true) ∧
    Matcher.matchDomain envTriv
        (Matcher.new envTriv [GoRecord.mk (str "myhost.") (str "1.1.1.1")])
        (str "myhost." ++ str ".") = ([], false) := by
  decide

/-- **C6 (confirmed).**  `Match` scans the records in declaration order,
trying the exact (FQDN-normalized, case-insensitive) comparison first and
then the cached regex per record, and returns the IP of the first record that
matches — i.e. it agrees with `List.find?` over the per-record match
predicate, so when two records both match the same query the
earlier-declared record's IP is returned. -/
theorem claim_C6 (env : RegexEnv) (records : List GoRecord) (q : Str) :
    Matcher.matchDomain env (Matcher.new env records) q =
      match records.find?
          (recMatches env (compilePatterns env records) (normalizeQuery q)) with
      | some r => (r.ip, true)
      | none => ([], false) :=
  matchLoop_eq_findFirst env (compilePatterns env records) (normalizeQuery q) records

/-- **C10 (confirmed).**  Whenever `Match` returns `(ip, true)`, `ip` is the
IP of some record in the matcher's current record list; and `Update` replaces
both the record slice and the entire compiled-regex cache, so the updated
matcher's state is exactly that of a matcher freshly built from the new
records — no query on it can resolve through a record or compiled pattern of
a previous record list. -/
theorem claim_C10 (env : RegexEnv) (m : Matcher) (q ip : Str)
    (newRecords : List GoRecord)
    (h : Matcher.matchDomain env m q = (ip, true)) :
    (∃ r ∈ m.records, r.ip = ip) ∧
    Matcher.update env m newRecords = Matcher.new env newRecords := by
  constructor
  · exact matchLoop_sound env m.regexCache (normalizeQuery q) m.records ip h
  · rfl

/-- Witness for C10 at a concrete input. -/
theorem claim_C10_witness :
    (∃ r ∈ (Matcher.new envTriv [GoRecord.mk (str "myhost") (str "10.0.0.1")]).records,
        r.ip = str "10.0.0.1") ∧
    Matcher.update envTriv (Matcher.new envTriv [GoRecord.mk (str "myhost") (str "10.0.0.1")]) [] =
      Matcher.new envTriv [] :=
  claim_C10 envTriv (Matcher.new envTriv [GoRecord.mk (str "myhost") (str "10.0.0.1")])
    (str "myhost") (str "10.0.0.1") [] (by decide)

/-! ### DNS query handler (internal/dns/handler.go `Handler.ServeDNS`) -/

/-- One question of a DNS request: name and numeric query type
(`dns.TypeA = 1`). -/
structure Question where
  name : Str
  qtype : Nat
deriving DecidableEq

/-- One A answer as built by `ServeDNS`: header name (the question's name,
original casing), TTL, and the address string passed to `net.ParseIP`. -/
structure Answer where
  name : Str
  ttl : Nat
  ip : Str
deriving DecidableEq

/-- The reply message state `ServeDNS` builds: accumulated answers plus the
response code. -/
structure DnsMsg where
  answers : List Answer
  rcode : Nat
deriving DecidableEq

/-- `dns.TypeA`. -/
def typeA : Nat := 1

/-- `dns.RcodeSuccess`, the rcode `SetReply` starts from. -/
def rcodeSuccess : Nat := 0

/-- `dns.RcodeNameError` (NXDOMAIN). -/
def rcodeNameError : Nat := 3

/-- One iteration of the question loop in `ServeDNS`: non-A queries are
skipped (`continue`); A queries either append an A answer with TTL 300 for a
cache hit or set the rcode to name-error for a miss. -/
def serveQuestion (env : RegexEnv) (m : Matcher) (msg : DnsMsg) (q : Question) : DnsMsg :=
  if q.qtype ≠ typeA then msg
  else
    match Matcher.matchDomain env m (goToLower q.name) with
    | (ip, true) => { msg with answers := msg.answers ++ [⟨q.name, 300, ip⟩] }
    | (_, false) => { msg with rcode := rcodeNameError }

/-- Embedded `Handler.ServeDNS`: `SetReply` initialises an empty success
reply, then the question loop runs; `Cache.Lookup` is `Matcher.matchDomain`. -/
def serveDNS (env : RegexEnv) (m : Matcher) (qs : List Question) : DnsMsg :=
  qs.foldl (serveQuestion env m) ⟨[], rcodeSuccess⟩

/-- **C1 (amended).**  For a single-question request: if the query is of A
type and the name matches a record, the reply carries exactly one address
answer with the matched IP and the fixed positive TTL 300 (and success
rcode); if the query is of A type and the name matches no record, the reply
is name-error (NXDOMAIN); but if the query type is not A, the question is
skipped and the reply keeps the success rcode with no answer — it is not
NXDOMAIN.  (The original claim's NXDOMAIN-for-non-A-types part is refuted by
`claim_C1_counterexample`.) -/
theorem claim_C1 (env : RegexEnv) (m : Matcher) (q : Question) :
    serveDNS env m [q] =
      if q.qtype = typeA then
        match Matcher.matchDomain env m (goToLower q.name) with
        | (ip, true) => ⟨[⟨q.name, 300, ip⟩], rcodeSuccess⟩
        | (_, false) => ⟨[], rcodeNameError⟩
      else ⟨[], rcodeSuccess⟩ := by
  unfold serveDNS serveQuestion
  by_cases h : q.qtype = typeA
  · simp only [List.foldl, h, if_pos, if_neg, ne_eq, not_true_eq_false, if_false]
    cases hm : Matcher.matchDomain env m (goToLower q.name) with
    | mk ip found =>
      cases found with
      | true => simp
      | false => simp
  · simp [h]

/-- **C1 (counterexample to the original claim).**  A single AAAA
(type 28) question on an empty record set: the handler skips the question
and returns an answerless reply with the success rcode, not name-error. -/
theorem claim_C1_counterexample :
    (serveDNS envTriv (Matcher.new envTriv []) [⟨str "example.com.", 28⟩]).rcode =
        rcodeSuccess ∧
    rcodeSuccess ≠ rcodeNameError ∧
    (serveDNS envTriv (Matcher.new envTriv []) [⟨str "example.com.", 28⟩]).answers = [] := by
  decide

/-! ### Loopback IP allocation (internal/dns/server.go `Server.bindLoopbackIP`) -/

/-- Abstract environment for the allocation loop: the random candidate drawn
at each attempt (already formatted `127.x.y.z`, abstracting
`fmt.Sprintf` over three `rand.Intn(256)` draws), the loopback-interface
probe (`isIPInUse`), and whether the OS `addLoopbackAlias` command succeeds. -/
structure AllocEnv where
  candidate : Nat → Str
  inUse : Str → Bool
  addOk : Str → Bool

/-- The attempt loop of `bindLoopbackIP`: skip `127.0.0.1`, skip candidates
the probe reports in use, return the first candidate the OS alias-add
accepts; give up after the attempt budget is exhausted. -/
def bindLoopbackGo (env : AllocEnv) : Nat → Nat → Option Str
  | _, 0 => none
  | i, a + 1 =>
    let ip := env.candidate i
    if ip = str "127.0.0.1" then bindLoopbackGo env (i + 1) a
    else if env.inUse ip then bindLoopbackGo env (i + 1) a
    else if env.addOk ip then some ip
    else bindLoopbackGo env (i + 1) a

/-- Embedded `Server.bindLoopbackIP` with its `maxAttempts = 100`. -/
def bindLoopbackIP (env : AllocEnv) : Option Str := bindLoopbackGo env 0 100

theorem bindLoopbackGo_sound (env : AllocEnv) (i a : Nat) (ip : Str)
    (h : bindLoopbackGo env i a = some ip) :
    ip ≠ str "127.0.0.1" ∧ env.inUse ip = false ∧ env.addOk ip = true := by
  induction a generalizing i with
  | zero => simp [bindLoopbackGo] at h
  | succ a ih =>
    rw [bindLoopbackGo] at h
    by_cases h1 : env.candidate i = str "127.0.0.1"
    · rw [if_pos h1] at h
      exact ih (i + 1) h
    · rw [if_neg h1] at h
      by_cases h2 : env.inUse (env.candidate i) = true
      · rw [if_pos h2] at h
        exact ih (i + 1) h
      · rw [if_neg h2] at h
        by_cases h3 : env.addOk (env.candidate i) = true
        · rw [if_pos h3] at h
          cases h
          exact ⟨h1, by simpa using h2, h3⟩
        · rw [if_neg h3] at h
          exact ih (i + 1) h

/-- **C9 (confirmed).**  Whenever the loopback-IP allocation loop returns an
IP successfully, that IP is never `127.0.0.1` and never an address the
loopback-interface probe reported as already in use (candidates failing
either check are skipped, so the returned one also passed the OS alias-add). -/
theorem claim_C9 (env : AllocEnv) (ip : Str) (h : bindLoopbackIP env = some ip) :
    ip ≠ str "127.0.0.1" ∧ env.inUse ip = false :=
  (bindLoopbackGo_sound env 0 100 ip h).imp id And.left

/-- Witness for C9: an environment whose first candidate is a free
`127.0.0.2` that the OS accepts. -/
theorem claim_C9_witness :
    str "127.0.0.2" ≠ str "127.0.0.1" ∧
    AllocEnv.inUse ⟨fun _ => str "127.0.0.2", fun _ => false, fun _ => true⟩
      (str "127.0.0.2") = false :=
  claim_C9 ⟨fun _ => str "127.0.0.2", fun _ => false, fun _ => true⟩
    (str "127.0.0.2") (by decide)

/-! ### String utilities shared by the resolver manager and the Linux
resolver passes -/

/-- Go `strings.Split` for a one-character separator. -/
def splitOnChar (sep : Char) : Str → List Str
  | [] => [[]]
  | c :: cs =>
    if c = sep then [] :: splitOnChar sep cs
    else
      match splitOnChar sep cs with
      | [] => [[c]]
      | h :: t => (c :: h) :: t

/-- Go `strings.Join` for a one-character separator. -/
def joinWith (sep : Char) : List Str → Str
  | [] => []
  | [l] => l
  | l :: ls => l ++ sep :: joinWith sep ls

/-- Go `strings.TrimSpace` (whitespace per `Char.isWhitespace`). -/
def trimSpace (s : Str) : Str :=
  ((s.dropWhile Char.isWhitespace).reverse.dropWhile Char.isWhitespace).reverse

/-- Go `strings.TrimSuffix` for a one-character suffix. -/
def trimSuffixChar (c : Char) (s : Str) : Str :=
  if s.getLast? = some c then s.dropLast else s

/-- Go `strings.TrimPrefix` for a one-character prefix. -/
def trimPrefixChar (c : Char) (s : Str) : Str :=
  if s.head? = some c then s.tail else s

/-! ### Suffix extraction (internal/resolver `Manager.extractSuffix`) -/

/-- Go `strings.ReplaceAll(s, "\\.", ".")`: each backslash-dot pair becomes a
dot, scanning left to right over non-overlapping occurrences. -/
def replaceEscDot : Str → Str
  | [] => []
  | '\\' :: '.' :: rest => '.' :: replaceEscDot rest
  | c :: rest => c :: replaceEscDot rest

/-- `regexp.MustCompile("\\[.*?\\]").ReplaceAllString(s, "")`: each
leftmost-shortest `[...]` span (from a `[` through the first following `]`)
is removed, scanning left to right.  The fuel argument (instantiated with the
input length, which every scan step strictly consumes) only makes the
recursion structural. -/
def removeCharClassesF : Nat → Str → Str
  | 0, s => s
  | _ + 1, [] => []
  | fuel + 1, c :: cs =>
    if c = '[' ∧ ']' ∈ cs then
      removeCharClassesF fuel ((cs.dropWhile fun x => decide (x ≠ ']')).drop 1)
    else c :: removeCharClassesF fuel cs

/-- The character-class removal pass of `extractSuffix`. -/
def removeCharClasses (s : Str) : Str := removeCharClassesF s.length s

/-- Helper for the non-greedy group removals: given the text after an opening
parenthesis, find the first `)` that is immediately followed by `mark` and
return the text after that `mark`, or `none` when no such close exists. -/
def splitAfterCloseMark (mark : Char) : Str → Option Str
  | [] => none
  | [_] => none
  | c :: m :: rest =>
    if c = ')' ∧ m = mark then some rest
    else splitAfterCloseMark mark (m :: rest)

/-- `regexp.MustCompile("\\(.*?\\)" ++ mark).ReplaceAllString(s, "")` for a
quantifier `mark` (one of `+`, `*`, `?`): each leftmost-shortest span from a
`(` through the first `)` immediately followed by `mark` is removed together
with the `mark`, scanning left to right.  Fuel as in
`removeCharClassesF`. -/
def removeGroupsF (mark : Char) : Nat → Str → Str
  | 0, s => s
  | _ + 1, [] => []
  | fuel + 1, c :: cs =>
    if c = '(' then
      match splitAfterCloseMark mark cs with
      | some rest => removeGroupsF mark fuel rest
      | none => c :: removeGroupsF mark fuel cs
    else c :: removeGroupsF mark fuel cs

/-- The quantified-group removal pass of `extractSuffix`. -/
def removeGroups (mark : Char) (s : Str) : Str := removeGroupsF mark s.length s

/-- Go `strings.ReplaceAll(s, string c, "")`. -/
def removeAllChar (c : Char) (s : Str) : Str :=
  s.filter fun x => decide (x ≠ c)

/-- Embedded `Manager.extractSuffix`: strip regex anchors, escaped dots,
character classes, quantified groups and leftover regex operator characters,
split on dots, trim whitespace, drop empty labels, and return the last
remaining label (or the empty string when none remains). -/
def extractSuffix (pat : Str) : Str :=
  let p1 := trimSuffixChar '.' pat
  let p2 := trimPrefixChar '^' p1
  let p3 := trimSuffixChar '$' p2
  let p4 := replaceEscDot p3
  let p5 := removeCharClasses p4
  let p6 := removeGroups '+' p5
  let p7 := removeGroups '*' p6
  let p8 := removeGroups '?' p7
  let p9 := removeAllChar '+' p8
  let p10 := removeAllChar '*' p9
  let p11 := removeAllChar '?' p10
  let p12 := removeAllChar '(' p11
  let p13 := removeAllChar ')' p12
  let p14 := removeAllChar '|' p13
  let parts := splitOnChar '.' p14
  let cleanParts := (parts.map trimSpace).filter fun part => decide (part ≠ [])
  match cleanParts.getLast? with
  | some part => part
  | none => []

/-- **C7 (confirmed).**  `extractSuffix` maps the wildcard pattern
`^[a-zA-Z0-9-]+\.myhost\.$` to `myhost`, and the multi-label literal
`api.example.com` to its top label `com` (not the registrable domain). -/
theorem claim_C7 :
    extractSuffix (str "^[a-zA-Z0-9-]+\\.myhost\\.$") = str "myhost" ∧
    extractSuffix (str "api.example.com") = str "com" := by
  decide

/-! ### Resolver manager (internal/resolver `Manager`)

The OS side effects of one reconciliation pass are modelled by explicit
state (managed-suffix set plus the on-disk per-suffix hint files) and an
event trace.  OS commands (`tee`, `rm -f`, the cache flush) are modelled as
succeeding, which is the behaviour the idempotence and diff claims describe;
a `tee`/`rm` failure is logged by the Go code and skips only that suffix. -/

/-- Embedded `Manager` state: `managedDomains` (the Go `map[string]bool`,
as a duplicate-free list) and the `/etc/resolver` directory contents
(suffix ↦ file content). -/
structure ManagerState where
  managedDomains : List Str
  files : List (Str × Str)
deriving DecidableEq

/-- Observable OS actions of a pass: a hint-file write, a hint-file removal,
a DNS-cache flush. -/
inductive REvent where
  | wrote (sfx : Str)
  | removed (sfx : Str)
  | flushed
deriving DecidableEq

/-- Association-list lookup for the modelled directory. -/
def lookupA (files : List (Str × Str)) (k : Str) : Option Str :=
  match files with
  | [] => none
  | (k0, v) :: rest => if k0 = k then some v else lookupA rest k

/-- Overwrite-or-create a file (model of the `tee` write). -/
def setFile (files : List (Str × Str)) (k v : Str) : List (Str × Str) :=
  match files with
  | [] => [(k, v)]
  | (k0, v0) :: rest => if k0 = k then (k, v) :: rest else (k0, v0) :: setFile rest k v

/-- Delete a file (model of `rm -f`). -/
def delFile (files : List (Str × Str)) (k : Str) : List (Str × Str) :=
  files.filter fun kv => decide (kv.1 ≠ k)

/-- The hint content `createResolverFile` writes:
`nameserver <bindIP>\nport 53\n`. -/
def expectedContent (bindIP : Str) : Str :=
  str "nameserver " ++ bindIP ++ str "\nport 53\n"

/-- First-occurrence deduplication: the set of keys of the Go
`suffixMap`, in first-insertion order (Go map iteration order is
unspecified; the claims proved below are insensitive to it). -/
def dedupFirst : List Str → List Str
  | [] => []
  | s :: ss => s :: (dedupFirst ss).filter fun t => decide (t ≠ s)

/-- Embedded `Manager.extractDomainSuffixes`: skip empty domains, extract
each suffix, skip empty suffixes, deduplicate. -/
def extractDomainSuffixes (records : List GoRecord) : List Str :=
  dedupFirst (records.filterMap fun r =>
    if r.domain = [] then none
    else
      let s := extractSuffix r.domain
      if s = [] then none else some s)

/-- Embedded `Manager.createResolverFile`: leave a file whose content is
already the expected hint untouched, otherwise (re)write it. -/
def createResolverFile (bindIP : Str) (files : List (Str × Str)) (sfx : Str) :
    List (Str × Str) × List REvent :=
  if lookupA files sfx = some (expectedContent bindIP) then (files, [])
  else (setFile files sfx (expectedContent bindIP), [REvent.wrote sfx])

/-- The create/update loop of `UpdateResolverFiles`: ensure each suffix's
hint file, recording in the returned Bool whether any suffix was new to the
managed set (the only way this loop sets `changesMade`). -/
def createPhase (bindIP : Str) (managed : List Str) :
    List Str → List (Str × Str) → List (Str × Str) × Bool × List REvent
  | [], files => (files, false, [])
  | sfx :: rest, files =>
    let isNew := decide (sfx ∉ managed)
    let fe := createResolverFile bindIP files sfx
    let r := createPhase bindIP managed rest fe.1
    (r.1, isNew || r.2.1, fe.2 ++ r.2.2)

/-- The removal loop of `UpdateResolverFiles`: delete the hint of every
previously-managed suffix not in the new suffix set, recording whether any
removal happened. -/
def removePhase (newDomains : List Str) :
    List Str → List (Str × Str) → List (Str × Str) × Bool × List REvent
  | [], files => (files, false, [])
  | d :: ds, files =>
    if d ∈ newDomains then removePhase newDomains ds files
    else
      let r := removePhase newDomains ds (delFile files d)
      (r.1, true, REvent.removed d :: r.2.2)

/-- Embedded `Manager.UpdateResolverFiles`: compute the suffix set (returning
immediately when it is empty), run the create/update loop then the removal
loop, replace the managed set, and flush the DNS cache once iff either loop
reported a change. -/
def updateResolverFiles (bindIP : Str) (records : List GoRecord) (st : ManagerState) :
    ManagerState × List REvent :=
  let suffixes := extractDomainSuffixes records
  if suffixes = [] then (st, [])
  else
    let c := createPhase bindIP st.managedDomains suffixes st.files
    let r := removePhase suffixes st.managedDomains c.1
    let changed := c.2.1 || r.2.1
    (⟨suffixes, r.1⟩, c.2.2 ++ r.2.2 ++ if changed then [REvent.flushed] else [])

/-! #### Reconciliation-pass lemmas -/

theorem flushed_notMem_createPhase (bindIP : Str) (managed : List Str)
    (ss : List Str) (files : List (Str × Str)) :
    REvent.flushed ∉ (createPhase bindIP managed ss files).2.2 := by
  induction ss generalizing files with
  | nil => simp [createPhase]
  | cons sfx rest ih =>
    simp only [createPhase, List.mem_append]
    push_neg
    refine ⟨?_, ih _⟩
    unfold createResolverFile
    by_cases h : lookupA files sfx = some (expectedContent bindIP) <;> simp [h]

theorem flushed_notMem_removePhase (newDomains ds : List Str)
    (files : List (Str × Str)) :
    REvent.flushed ∉ (removePhase newDomains ds files).2.2 := by
  induction ds generalizing files with
  | nil => simp [removePhase]
  | cons d ds ih =>
    by_cases h : d ∈ newDomains
    · simpa [removePhase, h] using ih files
    · simpa [removePhase, h] using ih (delFile files d)

theorem createPhase_changed (bindIP : Str) (managed : List Str)
    (ss : List Str) (files : List (Str × Str)) :
    (createPhase bindIP managed ss files).2.1 =
      ss.any fun s => decide (s ∉ managed) := by
  induction ss generalizing files with
  | nil => simp [createPhase]
  | cons sfx rest ih => simp [createPhase, ih]

theorem removePhase_changed (newDomains ds : List Str)
    (files : List (Str × Str)) :
    (removePhase newDomains ds files).2.1 =
      ds.any fun d => decide (d ∉ newDomains) := by
  induction ds generalizing files with
  | nil => simp [removePhase]
  | cons d ds ih =>
    by_cases h : d ∈ newDomains
    · simp [removePhase, h, ih]
    · simp [removePhase, h]

/-- **C3 (amended).**  In every `UpdateResolverFiles` pass the OS DNS cache
is flushed at most once, and it is flushed exactly once iff the computed
suffix set is non-empty and either some suffix is new to the managed set or
some previously-managed suffix is dropped.  A rewrite of an already-managed
suffix's stale hint file is a write that does not trigger a flush (see
`claim_C3_counterexample`), and a pass can flush without performing any
write, namely when a suffix new to the managed set already has a correct
hint file on disk. -/
theorem claim_C3 (bindIP : Str) (records : List GoRecord) (st : ManagerState) :
    (updateResolverFiles bindIP records st).2.count REvent.flushed =
      if extractDomainSuffixes records ≠ [] ∧
          ((∃ s ∈ extractDomainSuffixes records, s ∉ st.managedDomains) ∨
           (∃ d ∈ st.managedDomains, d ∉ extractDomainSuffixes records)) then 1
      else 0 := by
  unfold updateResolverFiles
  by_cases hemp : extractDomainSuffixes records = []
  · simp [hemp]
  · simp only [hemp, if_neg, if_false, ne_eq, not_false_eq_true, true_and]
    rw [List.count_append, List.count_append]
    rw [List.count_eq_zero.mpr (flushed_notMem_createPhase bindIP st.managedDomains _ st.files)]
    rw [List.count_eq_zero.mpr (flushed_notMem_removePhase _ st.managedDomains _)]
    rw [createPhase_changed, removePhase_changed]
    by_cases hch : ((extractDomainSuffixes records).any fun s => decide (s ∉ st.managedDomains)) ||
        (st.managedDomains.any fun d => decide (d ∉ extractDomainSuffixes records))
    · rw [if_pos hch]
      rw [if_pos]
      · simp
      · simpa using hch
    · rw [if_neg hch]
      rw [if_neg]
      · simp
      · simpa using hch

/-- **C3 (counterexample to the original claim).**  A pass over the single
already-managed suffix `a` whose on-disk hint is stale: the pass rewrites the
hint file (a write occurs) but flushes nothing, because `changesMade` is only
set for suffixes new to the managed set and for removals. -/
theorem claim_C3_counterexample :
    REvent.wrote (str "a") ∈
      (updateResolverFiles (str "127.0.0.2") [GoRecord.mk (str "a") (str "10.0.0.1")]
        ⟨[str "a"], [(str "a", str "stale")]⟩).2 ∧
    REvent.flushed ∉
      (updateResolverFiles (str "127.0.0.2") [GoRecord.mk (str "a") (str "10.0.0.1")]
        ⟨[str "a"], [(str "a", str "stale")]⟩).2 := by
  decide

theorem removed_mem_removePhase (newDomains ds : List Str)
    (files : List (Str × Str)) (d : Str) (hmem : d ∈ ds) (habs : d ∉ newDomains) :
    REvent.removed d ∈ (removePhase newDomains ds files).2.2 := by
  induction ds generalizing files with
  | nil => simp at hmem
  | cons d0 ds ih =>
    by_cases h0 : d0 ∈ newDomains
    · have hne : d ≠ d0 := fun he => habs (he ▸ h0)
      have hmem' : d ∈ ds := by
        cases List.mem_cons.mp hmem with
        | inl he => exact absurd he hne
        | inr hm => exact hm
      simpa [removePhase, h0] using ih files hmem'
    · by_cases hd : d = d0
      · subst hd
        simp [removePhase, h0]
      · have hmem' : d ∈ ds := by
          cases List.mem_cons.mp hmem with
          | inl he => exact absurd he hd
          | inr hm => exact hm
        simp only [removePhase, if_neg h0, List.mem_cons]
        exact Or.inr (ih (delFile files d0) hmem')

/-- **C4 (amended).**  Provided the suffix set computed from the new records
is non-empty, every previously-managed suffix absent from it has its
resolver hint removed during the pass and leaves the managed set.  (When the
computed suffix set is empty the pass returns early and removes nothing —
`claim_C4_counterexample`.)  The second conjunct is the claim's concrete
instance: with managed suffixes `{a, b}` (both hints correct on disk) and
new records yielding suffixes `{b, c}`, exactly `a` is removed, `c` is
created, and `b` is left untouched — the full pass emits exactly the events
`[wrote c, removed a, flushed]` and leaves exactly `b`'s and `c`'s hints. -/
theorem claim_C4 (bindIP : Str) (records : List GoRecord) (st : ManagerState)
    (d : Str) (hne : extractDomainSuffixes records ≠ [])
    (hmem : d ∈ st.managedDomains)
    (habs : d ∉ extractDomainSuffixes records) :
    (REvent.removed d ∈ (updateResolverFiles bindIP records st).2 ∧
     d ∉ (updateResolverFiles bindIP records st).1.managedDomains) ∧
    updateResolverFiles (str "127.0.0.2")
        [GoRecord.mk (str "b") (str "10.0.0.1"), GoRecord.mk (str "c") (str "10.0.0.2")]
        ⟨[str "a", str "b"],
         [(str "a", expectedContent (str "127.0.0.2")),
          (str "b", expectedContent (str "127.0.0.2"))]⟩ =
      (⟨[str "b", str "c"],
        [(str "b", expectedContent (str "127.0.0.2")),
         (str "c", expectedContent (str "127.0.0.2"))]⟩,
       [REvent.wrote (str "c"), REvent.removed (str "a"), REvent.flushed]) := by
  constructor
  · unfold updateResolverFiles
    simp only [hne, if_neg, if_false]
    constructor
    · rw [List.mem_append, List.mem_append]
      left
      right
      exact removed_mem_removePhase _ st.managedDomains _ d hmem habs
    · simpa using habs
  · decide

/-- **C4 (counterexample to the original claim).**  With suffix `a` managed
and a new record list whose computed suffix set is empty, the pass returns
early: `a`'s hint is not removed and `a` stays in the managed set, although
`a` is absent from the computed suffix set. -/
theorem claim_C4_counterexample :
    updateResolverFiles (str "127.0.0.2") []
        ⟨[str "a"], [(str "a", expectedContent (str "127.0.0.2"))]⟩ =
      (⟨[str "a"], [(str "a", expectedContent (str "127.0.0.2"))]⟩, []) ∧
    str "a" ∉ extractDomainSuffixes ([] : List GoRecord) := by
  decide

/-- Witness for C4 at the `{a, b} → {b, c}` instance with `d := "a"`. -/
theorem claim_C4_witness :
    (REvent.removed (str "a") ∈
        (updateResolverFiles (str "127.0.0.2")
          [GoRecord.mk (str "b") (str "10.0.0.1"), GoRecord.mk (str "c") (str "10.0.0.2")]
          ⟨[str "a", str "b"],
           [(str "a", expectedContent (str "127.0.0.2")),
            (str "b", expectedContent (str "127.0.0.2"))]⟩).2 ∧
     str "a" ∉
        (updateResolverFiles (str "127.0.0.2")
          [GoRecord.mk (str "b") (str "10.0.0.1"), GoRecord.mk (str "c") (str "10.0.0.2")]
          ⟨[str "a", str "b"],
           [(str "a", expectedContent (str "127.0.0.2")),
            (str "b", expectedContent (str "127.0.0.2"))]⟩).1.managedDomains) ∧
    updateResolverFiles (str "127.0.0.2")
        [GoRecord.mk (str "b") (str "10.0.0.1"), GoRecord.mk (str "c") (str "10.0.0.2")]
        ⟨[str "a", str "b"],
         [(str "a", expectedContent (str "127.0.0.2")),
          (str "b", expectedContent (str "127.0.0.2"))]⟩ =
      (⟨[str "b", str "c"],
        [(str "b", expectedContent (str "127.0.0.2")),
         (str "c", expectedContent (str "127.0.0.2"))]⟩,
       [REvent.wrote (str "c"), REvent.removed (str "a"), REvent.flushed]) :=
  claim_C4 (str "127.0.0.2")
    [GoRecord.mk (str "b") (str "10.0.0.1"), GoRecord.mk (str "c") (str "10.0.0.2")]
    ⟨[str "a", str "b"],
     [(str "a", expectedContent (str "127.0.0.2")),
      (str "b", expectedContent (str "127.0.0.2"))]⟩
    (str "a") (by decide) (by decide) (by decide)

/-! #### Idempotence of `UpdateResolverFiles` -/

theorem lookupA_setFile_self (files : List (Str × Str)) (k v : Str) :
    lookupA (setFile files k v) k = some v := by
  induction files with
  | nil => simp [setFile, lookupA]
  | cons kv rest ih =>
    obtain ⟨k0, v0⟩ := kv
    by_cases h : k0 = k
    · simp [setFile, h, lookupA]
    · simp [setFile, h, lookupA, ih]

theorem lookupA_setFile_ne (files : List (Str × Str)) (k0 k v : Str) (h : k0 ≠ k) :
    lookupA (setFile files k0 v) k = lookupA files k := by
  induction files with
  | nil => simp [setFile, lookupA, h]
  | cons kv rest ih =>
    obtain ⟨k1, v1⟩ := kv
    by_cases h1 : k1 = k0
    · subst h1
      simp [setFile, lookupA, h]
    · simp [setFile, h1, lookupA, ih]

theorem lookupA_delFile_ne (files : List (Str × Str)) (k0 k : Str) (h : k ≠ k0) :
    lookupA (delFile files k0) k = lookupA files k := by
  induction files with
  | nil => simp [delFile, lookupA]
  | cons kv rest ih =>
    obtain ⟨k1, v1⟩ := kv
    by_cases h1 : k1 = k0
    · subst h1
      have hk1 : ¬ (k1 = k) := fun he => h he.symm
      have hd : delFile ((k1, v1) :: rest) k1 = delFile rest k1 := by simp [delFile]
      rw [hd, ih]
      simp only [lookupA, if_neg hk1]
    · have hd : delFile ((k1, v1) :: rest) k0 = (k1, v1) :: delFile rest k0 := by
        simp [delFile, h1]
      rw [hd]
      simp only [lookupA]
      by_cases h2 : k1 = k
      · rw [if_pos h2, if_pos h2]
      · rw [if_neg h2, if_neg h2, ih]

theorem createResolverFile_lookup_self (bindIP : Str) (files : List (Str × Str)) (sfx : Str) :
    lookupA (createResolverFile bindIP files sfx).1 sfx = some (expectedContent bindIP) := by
  unfold createResolverFile
  by_cases h : lookupA files sfx = some (expectedContent bindIP)
  · simp [h]
  · simp [h, lookupA_setFile_self]

theorem createPhase_preserves_correct (bindIP : Str) (managed ss : List Str)
    (files : List (Str × Str)) (s : Str)
    (h : lookupA files s = some (expectedContent bindIP)) :
    lookupA (createPhase bindIP managed ss files).1 s = some (expectedContent bindIP) := by
  induction ss generalizing files with
  | nil => simpa [createPhase]
  | cons sfx rest ih =>
    simp only [createPhase]
    apply ih
    by_cases he : sfx = s
    · subst he
      rw [createResolverFile_lookup_self]
    · unfold createResolverFile
      by_cases hc : lookupA files sfx = some (expectedContent bindIP)
      · simpa [hc]
      · simpa [hc, lookupA_setFile_ne files sfx s (expectedContent bindIP) he]

theorem createPhase_lookup_mem (bindIP : Str) (managed ss : List Str)
    (files : List (Str × Str)) (s : Str) (hmem : s ∈ ss) :
    lookupA (createPhase bindIP managed ss files).1 s = some (expectedContent bindIP) := by
  induction ss generalizing files with
  | nil => simp at hmem
  | cons sfx rest ih =>
    simp only [createPhase]
    by_cases he : s = sfx
    · subst he
      exact createPhase_preserves_correct bindIP managed rest _ s
        (createResolverFile_lookup_self bindIP files s)
    · have hmem' : s ∈ rest := by
        cases List.mem_cons.mp hmem with
        | inl h => exact absurd h he
        | inr h => exact h
      exact ih _ hmem'

theorem removePhase_lookup_mem (newDomains ds : List Str)
    (files : List (Str × Str)) (s : Str) (hmem : s ∈ newDomains) :
    lookupA (removePhase newDomains ds files).1 s = lookupA files s := by
  induction ds generalizing files with
  | nil => simp [removePhase]
  | cons d rest ih =>
    by_cases h : d ∈ newDomains
    · simp only [removePhase, if_pos h]
      exact ih files
    · have hne : s ≠ d := fun he => h (he ▸ hmem)
      simp only [removePhase, if_neg h]
      rw [ih (delFile files d), lookupA_delFile_ne files d s hne]

theorem createPhase_noop (bindIP : Str) (managed ss : List Str)
    (files : List (Str × Str))
    (hcorrect : ∀ s ∈ ss, lookupA files s = some (expectedContent bindIP))
    (hmanaged : ∀ s ∈ ss, s ∈ managed) :
    createPhase bindIP managed ss files = (files, false, []) := by
  induction ss generalizing files with
  | nil => simp [createPhase]
  | cons sfx rest ih =>
    have h1 : lookupA files sfx = some (expectedContent bindIP) :=
      hcorrect sfx (List.mem_cons_self sfx rest)
    have h2 : sfx ∈ managed := hmanaged sfx (List.mem_cons_self sfx rest)
    simp only [createPhase, createResolverFile, h1, if_pos]
    rw [ih files (fun s hs => hcorrect s (List.mem_cons_of_mem sfx hs))
      (fun s hs => hmanaged s (List.mem_cons_of_mem sfx hs))]
    simp [h2]

theorem removePhase_noop (newDomains ds : List Str) (files : List (Str × Str))
    (hsub : ∀ d ∈ ds, d ∈ newDomains) :
    removePhase newDomains ds files = (files, false, []) := by
  induction ds generalizing files with
  | nil => simp [removePhase]
  | cons d rest ih =>
    have h1 : d ∈ newDomains := hsub d (List.mem_cons_self d rest)
    simp only [removePhase, if_pos h1]
    exact ih files fun e he => hsub e (List.mem_cons_of_mem d he)

/-- **C8 (confirmed).**  `UpdateResolverFiles` is idempotent: calling it a
second time with the same records, on the exact state (managed set and
on-disk hint files) the first call left, performs no hint-file write, no
removal and no DNS-cache flush (the second call's event trace is empty), and
leaves the whole manager state — in particular the managed-domain set —
unchanged. -/
theorem claim_C8 (bindIP : Str) (records : List GoRecord) (st : ManagerState) :
    updateResolverFiles bindIP records (updateResolverFiles bindIP records st).1 =
      ((updateResolverFiles bindIP records st).1, []) := by
  by_cases hemp : extractDomainSuffixes records = []
  · simp [updateResolverFiles, hemp]
  · have hfst : (updateResolverFiles bindIP records st).1 =
        ⟨extractDomainSuffixes records,
         (removePhase (extractDomainSuffixes records) st.managedDomains
           (createPhase bindIP st.managedDomains (extractDomainSuffixes records) st.files).1).1⟩ := by
      simp [updateResolverFiles, hemp]
    rw [hfst]
    have hcorrect : ∀ s ∈ extractDomainSuffixes records,
        lookupA (removePhase (extractDomainSuffixes records) st.managedDomains
          (createPhase bindIP st.managedDomains (extractDomainSuffixes records) st.files).1).1 s =
          some (expectedContent bindIP) := by
      intro s hs
      rw [removePhase_lookup_mem _ st.managedDomains _ s hs]
      exact createPhase_lookup_mem bindIP st.managedDomains _ st.files s hs
    unfold updateResolverFiles
    simp only [hemp, if_neg, if_false]
    rw [createPhase_noop bindIP _ _ _ hcorrect (fun s hs => hs)]
    rw [removePhase_noop _ _ _ (fun d hd => hd)]
    simp

/-! ### Linux shared resolver file (internal/dns/server.go) -/

/-- The managed line: `nameserver <bindIP>`. -/
def nameserverEntry (bindIP : Str) : Str := str "nameserver " ++ bindIP

/-- The presence check both Linux passes perform: some line of the file,
after `strings.TrimSpace`, equals the managed line. -/
def hasManagedLine (bindIP : Str) (lines : List Str) : Bool :=
  lines.any fun line => decide (trimSpace line = nameserverEntry bindIP)

/-- Embedded `Server.configureLinuxResolver`, as the transformation it
applies to the content of `/etc/resolv.conf`: split into lines; when the
managed nameserver line is already present anywhere, return early leaving
the content unchanged; otherwise prepend the managed line and rejoin. -/
def configureLinuxResolver (bindIP content : Str) : Str :=
  if hasManagedLine bindIP (splitOnChar '\n' content) then content
  else joinWith '\n' (nameserverEntry bindIP :: splitOnChar '\n' content)

/-- Embedded `Server.checkAndRestoreLinuxResolver`: the periodic repair pass
applies the same content transformation — do nothing when the managed line is
found anywhere, otherwise re-add it at the top. -/
def checkAndRestoreLinuxResolver (bindIP content : Str) : Str :=
  if hasManagedLine bindIP (splitOnChar '\n' content) then content
  else joinWith '\n' (nameserverEntry bindIP :: splitOnChar '\n' content)

theorem splitOnChar_ne_nil (sep : Char) (s : Str) : splitOnChar sep s ≠ [] := by
  cases s with
  | nil => simp [splitOnChar]
  | cons c cs =>
    simp only [splitOnChar]
    by_cases h : c = sep
    · simp [h]
    · cases hr : splitOnChar sep cs <;> simp [h, hr]

theorem notMem_splitOnChar (sep : Char) (s : Str) (p : Str)
    (hp : p ∈ splitOnChar sep s) : sep ∉ p := by
  induction s generalizing p with
  | nil =>
    simp only [splitOnChar, List.mem_singleton] at hp
    subst hp
    simp
  | cons c cs ih =>
    simp only [splitOnChar] at hp
    by_cases h : c = sep
    · rw [if_pos h] at hp
      cases List.mem_cons.mp hp with
      | inl he => subst he; simp
      | inr hm => exact ih p hm
    · rw [if_neg h] at hp
      cases hr : splitOnChar sep cs with
      | nil => exact absurd hr (splitOnChar_ne_nil sep cs)
      | cons q t =>
        rw [hr] at hp
        cases List.mem_cons.mp hp with
        | inl he =>
          subst he
          intro hmem
          cases List.mem_cons.mp hmem with
          | inl he2 => exact h he2.symm
          | inr hm2 => exact ih q (hr ▸ List.mem_cons_self q t) hm2
        | inr hm => exact ih p (hr ▸ List.mem_cons_of_mem q hm)

theorem splitOnChar_of_notMem (sep : Char) (p : Str) (h : sep ∉ p) :
    splitOnChar sep p = [p] := by
  induction p with
  | nil => rfl
  | cons c p' ih =>
    have hc : ¬ (c = sep) := fun he => h (he ▸ List.mem_cons_self c p')
    have hp' : sep ∉ p' := fun hm => h (List.mem_cons_of_mem c hm)
    simp only [splitOnChar, if_neg hc, ih hp']

theorem splitOnChar_append_sep (sep : Char) (p rest : Str) (h : sep ∉ p) :
    splitOnChar sep (p ++ sep :: rest) = p :: splitOnChar sep rest := by
  induction p with
  | nil => simp [splitOnChar]
  | cons c p' ih =>
    have hc : ¬ (c = sep) := fun he => h (he ▸ List.mem_cons_self c p')
    have hp' : sep ∉ p' := fun hm => h (List.mem_cons_of_mem c hm)
    simp only [List.cons_append, splitOnChar, if_neg hc, List.append_eq, ih hp']

theorem splitOnChar_joinWith (sep : Char) (ps : List Str) (hne : ps ≠ [])
    (h : ∀ p ∈ ps, sep ∉ p) : splitOnChar sep (joinWith sep ps) = ps := by
  induction ps with
  | nil => exact absurd rfl hne
  | cons p qs ih =>
    cases qs with
    | nil =>
      rw [joinWith]
      exact splitOnChar_of_notMem sep p (h p (List.mem_singleton.mpr rfl))
    | cons q rest =>
      have hnil : q :: rest ≠ [] := List.cons_ne_nil q rest
      have hsub : ∀ r ∈ q :: rest, sep ∉ r := fun r hr => h r (List.mem_cons_of_mem p hr)
      have hih := ih hnil hsub
      rw [joinWith, splitOnChar_append_sep sep p _ (h p (List.mem_cons_self p _)), hih]
      exact hnil

/-- **C2 (amended).**  On Linux, both the configuration pass
(`configureLinuxResolver`) and the periodic repair pass
(`checkAndRestoreLinuxResolver`) leave `/etc/resolv.conf` entirely unchanged
whenever any line's whitespace-trimmed form equals `nameserver <bindIP>` —
even when that line is displaced from the top (see
`claim_C2_counterexample`).  Only when the managed line is absent does a
pass insert it, and then it becomes exactly the first line with every
original line preserved verbatim and in relative order after it. -/
theorem claim_C2 (bindIP content : Str) (hip : '\n' ∉ bindIP) :
    (hasManagedLine bindIP (splitOnChar '\n' content) = true →
      configureLinuxResolver bindIP content = content ∧
      checkAndRestoreLinuxResolver bindIP content = content) ∧
    (hasManagedLine bindIP (splitOnChar '\n' content) = false →
      splitOnChar '\n' (configureLinuxResolver bindIP content) =
        nameserverEntry bindIP :: splitOnChar '\n' content ∧
      splitOnChar '\n' (checkAndRestoreLinuxResolver bindIP content) =
        nameserverEntry bindIP :: splitOnChar '\n' content) := by
  have hentry : '\n' ∉ nameserverEntry bindIP := by
    intro hm
    rw [nameserverEntry, List.mem_append] at hm
    cases hm with
    | inl h0 => exact absurd h0 (by decide)
    | inr h0 => exact hip h0
  constructor
  · intro hfound
    unfold configureLinuxResolver checkAndRestoreLinuxResolver
    rw [if_pos hfound]
    exact ⟨rfl, rfl⟩
  · intro habsent
    have hsplit : splitOnChar '\n'
        (joinWith '\n' (nameserverEntry bindIP :: splitOnChar '\n' content)) =
        nameserverEntry bindIP :: splitOnChar '\n' content := by
      apply splitOnChar_joinWith
      · simp
      · intro p hp
        cases List.mem_cons.mp hp with
        | inl he => exact he ▸ hentry
        | inr hm => exact notMem_splitOnChar '\n' content p hm
    unfold configureLinuxResolver checkAndRestoreLinuxResolver
    rw [if_neg (by simp [habsent])]
    exact ⟨hsplit, hsplit⟩

/-- Witness for C2: bindIP `127.0.0.2`, a two-line resolv.conf without the
managed line; the pass prepends `nameserver 127.0.0.2` as the first line. -/
theorem claim_C2_witness :
    (hasManagedLine (str "127.0.0.2")
        (splitOnChar '\n' (str "nameserver 8.8.8.8\noptions edns0")) = true →
      configureLinuxResolver (str "127.0.0.2") (str "nameserver 8.8.8.8\noptions edns0") =
        str "nameserver 8.8.8.8\noptions edns0" ∧
      checkAndRestoreLinuxResolver (str "127.0.0.2") (str "nameserver 8.8.8.8\noptions edns0") =
        str "nameserver 8.8.8.8\noptions edns0") ∧
    (hasManagedLine (str "127.0.0.2")
        (splitOnChar '\n' (str "nameserver 8.8.8.8\noptions edns0")) = false →
      splitOnChar '\n'
          (configureLinuxResolver (str "127.0.0.2") (str "nameserver 8.8.8.8\noptions edns0")) =
        nameserverEntry (str "127.0.0.2") ::
          splitOnChar '\n' (str "nameserver 8.8.8.8\noptions edns0") ∧
      splitOnChar '\n'
          (checkAndRestoreLinuxResolver (str "127.0.0.2") (str "nameserver 8.8.8.8\noptions edns0")) =
        nameserverEntry (str "127.0.0.2") ::
          splitOnChar '\n' (str "nameserver 8.8.8.8\noptions edns0")) :=
  claim_C2 (str "127.0.0.2") (str "nameserver 8.8.8.8\noptions edns0") (by decide)

/-- **C2 (counterexample to the original claim).**  With the managed line
present but displaced (second line), both passes return the file unchanged:
the managed `nameserver 127.0.0.2` line is *not* re-inserted at the top, so
after the pass the first line is still the foreign `nameserver 8.8.8.8`. -/
theorem claim_C2_counterexample :
    configureLinuxResolver (str "127.0.0.2")
        (str "nameserver 8.8.8.8\nnameserver 127.0.0.2") =
      str "nameserver 8.8.8.8\nnameserver 127.0.0.2" ∧
    checkAndRestoreLinuxResolver (str "127.0.0.2")
        (str "nameserver 8.8.8.8\nnameserver 127.0.0.2") =
      str "nameserver 8.8.8.8\nnameserver 127.0.0.2" ∧
    (splitOnChar '\n'
        (configureLinuxResolver (str "127.0.0.2")
          (str "nameserver 8.8.8.8\nnameserver 127.0.0.2"))).head? =
      some (str "nameserver 8.8.8.8") ∧
    str "nameserver 8.8.8.8" ≠ nameserverEntry (str "127.0.0.2") := by
  decide

end Reghost
